import Mathlib

/-!
Shallow embedding of the grammar-compilation cache
(`sglang/srt/constrained/base_grammar_backend.py`) and the batched sampling
state (`sglang/srt/sampling/sampling_batch_info.py`), with proofs of the
behavioural properties stated in the repository's specification.
-/

namespace SGLang

/-! ## Grammar objects and cache entries -/

/-- A grammar constraint object, identified by an instance id.  The concrete
grammar-object classes (outlines/xgrammar/llguidance) are opaque to the cache:
the only capability `base_grammar_backend.py` uses on a stored value is
`copy`. -/
structure GrammarObj where
  gid : Nat
  deriving DecidableEq, Repr

/-- Modelled from the spec: the concrete `copy` implementations of the grammar
backends are not under src/ (only the abstract `BaseGrammarObject.copy`
declaration is).  Per the spec every holder gets an independent copy of the
canonical instance, modelled here by returning an object with a fresh
instance id. -/
def GrammarObj.copy (o : GrammarObj) : GrammarObj :=
  ⟨o.gid + 1⟩

/-- `CacheEntry` from `base_grammar_backend.py`: an optional value and a
completion event (`eventSet` is `Event.is_set()`). -/
structure CacheEntry where
  value : Option GrammarObj
  eventSet : Bool
  deriving DecidableEq, Repr

/-- A grammar cache key: `(key_type, key_string)`. -/
def GrammarKey := String × String

instance : DecidableEq GrammarKey := by
  unfold GrammarKey
  infer_instance

/-! ## `get_cached_value` (non-blocking peek) -/

/-- `BaseGrammarBackend.get_cached_value`: under the lock, look the key up;
return `None` when the entry is missing or its event is not set, otherwise
return a copy of the stored value (or `None` when the stored value is
absent). -/
def get_cached_value (cache : GrammarKey → Option CacheEntry) (k : GrammarKey) :
    Option GrammarObj :=
  match cache k with
  | none => none
  | some entry =>
    if entry.eventSet then
      match entry.value with
      | some v => some v.copy
      | none => none
    else
      none

/-! ## Sequential `_init_value`, with the exception path

`_init_value` checks the cache under the lock; on a miss it inserts a pending
entry, then runs `_init_value_dispatch` outside the lock with **no
try/finally**: when the dispatch raises, the assignment to `entry.value` and
the `entry.event.set()` call never execute and the exception propagates,
leaving the pending entry in the cache.  On a hit the caller blocks on the
entry's event. -/

/-- Outcome of one sequential `_init_value` call: normal return, an escaping
dispatch exception, or the caller blocking on an event that is not set (and,
absent any other thread, will never be set). -/
inductive InitOutcome where
  | ok (st : GrammarKey → Option CacheEntry) (r : Option GrammarObj)
  | raised (st : GrammarKey → Option CacheEntry)
  | blocked (st : GrammarKey → Option CacheEntry)

/-- `BaseGrammarBackend._init_value`, sequential semantics.  `dispatch` is
`_init_value_dispatch`, which may raise (e.g. `dispatch_fallback` raises
`ValueError` on an unrecognized key type). -/
def init_value (dispatch : GrammarKey → Except String (Option GrammarObj))
    (st : GrammarKey → Option CacheEntry) (k : GrammarKey) : InitOutcome :=
  match st k with
  | some entry =>
    if entry.eventSet then .ok st (entry.value.map GrammarObj.copy)
    else .blocked st
  | none =>
    let st1 : GrammarKey → Option CacheEntry :=
      fun k2 => if k2 = k then some ⟨none, false⟩ else st k2
    match dispatch k with
    | .error _ => .raised st1
    | .ok v =>
      let st2 : GrammarKey → Option CacheEntry :=
        fun k2 => if k2 = k then some ⟨v, true⟩ else st k2
      .ok st2 (v.map GrammarObj.copy)

/-- The empty cache. -/
def emptyCache : GrammarKey → Option CacheEntry := fun _ => none

/-- A dispatch routine that raises, as `dispatch_fallback` does for an
unrecognized key type. -/
def raisingDispatch : GrammarKey → Except String (Option GrammarObj) :=
  fun _ => .error "ValueError"

/-- The key used for the concrete failing run. -/
def badKey : GrammarKey := ("badkind", "spec")

/-- The cache state left behind by a dispatch exception on `badKey`: a pending
entry whose event was never set. -/
def pendingCache : GrammarKey → Option CacheEntry :=
  fun k2 => if k2 = badKey then some ⟨none, false⟩ else none

/-- C2: the claim says a dispatch exception still marks the entry Ready
(event set) with an absent value so waiters unblock.  The code has no
try/finally: evaluating `_init_value` at a key whose dispatch raises shows the
exception escapes with the entry still pending (`eventSet = false`), and a
subsequent caller on the same key blocks on the never-set event instead of
unblocking. -/
theorem c2_exception_leaves_entry_pending :
    init_value raisingDispatch emptyCache badKey = .raised pendingCache
    ∧ pendingCache badKey = some ⟨none, false⟩
    ∧ init_value raisingDispatch pendingCache badKey = .blocked pendingCache := by
  refine ⟨?_, rfl, rfl⟩
  have : (fun k2 => if k2 = badKey then some (⟨none, false⟩ : CacheEntry)
      else emptyCache k2) = pendingCache := by
    funext k2
    simp [pendingCache, emptyCache]
  simp only [init_value, emptyCache, raisingDispatch]
  exact congrArg InitOutcome.raised this

/-! ## Concurrent `_init_value`: interleaving model

Each thread runs `_init_value` on one fixed key.  The lock-protected section
(lines 87-94: lookup, and on a miss the insertion of a pending entry) is one
atomic step; waiting on the event, and the compile-store-signal sequence of the
responsible thread, happen outside the lock.  `dv` is the (deterministic)
result of `_init_value_dispatch` for the key.  Entries live in a heap so that
a waiter's captured entry reference is modelled faithfully. -/

/-- The control state of one thread running `_init_value` on the shared key. -/
inductive TState where
  | start
  | waiting (e : Nat)
  | computing (e : Nat)
  | done (r : Option GrammarObj)
  deriving DecidableEq, Repr

/-- A configuration of the concurrent system for one key: the entry heap, the
cache table's binding for the key, the number of executed backend compiles,
and the thread states. -/
structure Config where
  heap : List CacheEntry
  cacheIdx : Option Nat
  compiles : Nat
  threads : List TState
  deriving DecidableEq, Repr

/-- One interleaved step of `_init_value`:
* `hit`: under the lock, the key is present; the thread will wait on that entry.
* `miss`: under the lock, the key is absent; insert a pending entry
  (`CacheEntry(None, Event())`) and become the responsible compiler.
* `wake`: `entry.event.wait()` returns once the event is set; the waiter
  returns `entry.value.copy() if entry.value else None`.
* `compute`: the responsible thread runs the dispatch, stores the value, sets
  the event (one observable step: the value write precedes the event set), and
  returns a copy of the stored value, counting one backend compile. -/
inductive Step (dv : Option GrammarObj) : Config → Config → Prop where
  | hit (h : List CacheEntry) (e n : Nat) (l₁ l₂ : List TState) :
      Step dv ⟨h, some e, n, l₁ ++ TState.start :: l₂⟩
              ⟨h, some e, n, l₁ ++ TState.waiting e :: l₂⟩
  | miss (h : List CacheEntry) (n : Nat) (l₁ l₂ : List TState) :
      Step dv ⟨h, none, n, l₁ ++ TState.start :: l₂⟩
              ⟨h ++ [⟨none, false⟩], some h.length, n,
               l₁ ++ TState.computing h.length :: l₂⟩
  | wake (h : List CacheEntry) (c : Option Nat) (n e : Nat) (l₁ l₂ : List TState)
      (entry : CacheEntry) (hget : h[e]? = some entry) (hset : entry.eventSet = true) :
      Step dv ⟨h, c, n, l₁ ++ TState.waiting e :: l₂⟩
              ⟨h, c, n, l₁ ++ TState.done (entry.value.map GrammarObj.copy) :: l₂⟩
  | compute (h : List CacheEntry) (c : Option Nat) (n e : Nat) (l₁ l₂ : List TState) :
      Step dv ⟨h, c, n, l₁ ++ TState.computing e :: l₂⟩
              ⟨h.set e ⟨dv, true⟩, c, n + 1,
               l₁ ++ TState.done (dv.map GrammarObj.copy) :: l₂⟩

/-- The initial configuration: empty cache, no compile yet, `N` callers about
to enter `_init_value`. -/
def initConfig (N : Nat) : Config :=
  ⟨[], none, 0, List.replicate N TState.start⟩

/-- Whether a thread is inside the compile section. -/
def TState.isComputing : TState → Bool
  | .computing _ => true
  | _ => false

@[simp] theorem isComputing_start : TState.start.isComputing = false := rfl

@[simp] theorem isComputing_waiting (e : Nat) :
    (TState.waiting e).isComputing = false := rfl

@[simp] theorem isComputing_computing (e : Nat) :
    (TState.computing e).isComputing = true := rfl

@[simp] theorem isComputing_done (r : Option GrammarObj) :
    (TState.done r).isComputing = false := rfl

/-- Every heap entry is either still pending or holds the dispatch result with
its event set. -/
def entryOK (dv : Option GrammarObj) (e : CacheEntry) : Prop :=
  e = ⟨none, false⟩ ∨ e = ⟨dv, true⟩

/-- Every finished thread returned a copy of the dispatch result. -/
def tstateOK (dv : Option GrammarObj) : TState → Prop
  | .done r => r = dv.map GrammarObj.copy
  | _ => True

/-- The inductive invariant of the interleaving model. -/
structure Inv (dv : Option GrammarObj) (cfg : Config) : Prop where
  count_le : cfg.compiles + cfg.threads.countP TState.isComputing ≤ 1
  heap_ok : ∀ e ∈ cfg.heap, entryOK dv e
  th_ok : ∀ t ∈ cfg.threads, tstateOK dv t
  fresh : cfg.cacheIdx = none →
    cfg.compiles = 0 ∧ cfg.threads.countP TState.isComputing = 0

theorem inv_init (dv : Option GrammarObj) (N : Nat) : Inv dv (initConfig N) := by
  have hcount : (List.replicate N TState.start).countP TState.isComputing = 0 := by
    rw [List.countP_eq_zero]
    intro a ha
    rw [List.eq_of_mem_replicate ha]
    simp [TState.isComputing]
  refine ⟨?_, ?_, ?_, ?_⟩
  · simp [initConfig, hcount]
  · intro e he
    simp [initConfig] at he
  · intro t ht
    rw [List.eq_of_mem_replicate ht]
    trivial
  · intro _
    exact ⟨rfl, hcount⟩

theorem countP_mid_computing (l₁ l₂ : List TState) (e : Nat) :
    (l₁ ++ TState.computing e :: l₂).countP TState.isComputing =
      l₁.countP TState.isComputing + l₂.countP TState.isComputing + 1 := by
  simp [List.countP_cons]
  omega

theorem countP_mid_other (l₁ l₂ : List TState) (t : TState)
    (ht : t.isComputing = false) :
    (l₁ ++ t :: l₂).countP TState.isComputing =
      l₁.countP TState.isComputing + l₂.countP TState.isComputing := by
  simp [List.countP_cons, ht]

theorem inv_step (dv : Option GrammarObj) {c c' : Config}
    (hs : Step dv c c') (hi : Inv dv c) : Inv dv c' := by
  obtain ⟨count_le, heap_ok, th_ok, fresh⟩ := hi
  cases hs with
  | hit h e n l₁ l₂ =>
    dsimp only at count_le heap_ok th_ok fresh ⊢
    refine ⟨?_, heap_ok, ?_, ?_⟩
    · dsimp only
      rw [countP_mid_other l₁ l₂ TState.start rfl] at count_le
      rw [countP_mid_other l₁ l₂ (TState.waiting e) rfl]
      omega
    · intro t ht
      rcases List.mem_append.1 ht with h1 | h2
      · exact th_ok t (List.mem_append.2 (Or.inl h1))
      · rcases List.mem_cons.1 h2 with rfl | h3
        · trivial
        · exact th_ok t (List.mem_append.2 (Or.inr (List.mem_cons.2 (Or.inr h3))))
    · intro hnone
      simp at hnone
  | miss h n l₁ l₂ =>
    dsimp only at count_le heap_ok th_ok fresh ⊢
    obtain ⟨h0, hcnt⟩ := fresh rfl
    rw [countP_mid_other l₁ l₂ TState.start rfl] at hcnt
    refine ⟨?_, ?_, ?_, ?_⟩
    · dsimp only
      rw [countP_mid_computing l₁ l₂]
      omega
    · intro e he
      rcases List.mem_append.1 he with h1 | h2
      · exact heap_ok e h1
      · rw [List.mem_singleton.1 h2]
        exact Or.inl rfl
    · intro t ht
      rcases List.mem_append.1 ht with h1 | h2
      · exact th_ok t (List.mem_append.2 (Or.inl h1))
      · rcases List.mem_cons.1 h2 with rfl | h3
        · trivial
        · exact th_ok t (List.mem_append.2 (Or.inr (List.mem_cons.2 (Or.inr h3))))
    · intro hnone
      simp at hnone
  | wake h c n e l₁ l₂ entry hget hset =>
    dsimp only at count_le heap_ok th_ok fresh ⊢
    refine ⟨?_, heap_ok, ?_, ?_⟩
    · dsimp only
      rw [countP_mid_other l₁ l₂ (TState.waiting e) rfl] at count_le
      rw [countP_mid_other l₁ l₂ (TState.done (entry.value.map GrammarObj.copy)) rfl]
      omega
    · intro t ht
      rcases List.mem_append.1 ht with h1 | h2
      · exact th_ok t (List.mem_append.2 (Or.inl h1))
      · rcases List.mem_cons.1 h2 with rfl | h3
        · have hmem : entry ∈ h := List.getElem?_mem hget
          rcases heap_ok entry hmem with hpend | hready
          · rw [hpend] at hset
            simp at hset
          · rw [hready]
            rfl
        · exact th_ok t (List.mem_append.2 (Or.inr (List.mem_cons.2 (Or.inr h3))))
    · intro hnone
      obtain ⟨h0, hcnt⟩ := fresh hnone
      refine ⟨h0, ?_⟩
      dsimp only
      rw [countP_mid_other l₁ l₂ (TState.waiting e) rfl] at hcnt
      rw [countP_mid_other l₁ l₂ (TState.done (entry.value.map GrammarObj.copy)) rfl]
      omega
  | compute h c n e l₁ l₂ =>
    dsimp only at count_le heap_ok th_ok fresh ⊢
    refine ⟨?_, ?_, ?_, ?_⟩
    · dsimp only
      rw [countP_mid_computing l₁ l₂ e] at count_le
      rw [countP_mid_other l₁ l₂ (TState.done (dv.map GrammarObj.copy)) rfl]
      omega
    · intro x hx
      rcases List.mem_or_eq_of_mem_set hx with h1 | h2
      · exact heap_ok x h1
      · rw [h2]
        exact Or.inr rfl
    · intro t ht
      rcases List.mem_append.1 ht with h1 | h2
      · exact th_ok t (List.mem_append.2 (Or.inl h1))
      · rcases List.mem_cons.1 h2 with rfl | h3
        · rfl
        · exact th_ok t (List.mem_append.2 (Or.inr (List.mem_cons.2 (Or.inr h3))))
    · intro hnone
      obtain ⟨h0, hcnt⟩ := fresh hnone
      rw [countP_mid_computing l₁ l₂ e] at hcnt
      omega

theorem inv_reachable (dv : Option GrammarObj) (N : Nat) (cfg : Config)
    (h : Relation.ReflTransGen (Step dv) (initConfig N) cfg) : Inv dv cfg := by
  induction h with
  | refl => exact inv_init dv N
  | tail _ hs ih => exact inv_step dv hs ih

/-- C1: for any grammar key, across any number of concurrent callers of
`_init_value` before any `reset()`, the backend compile (the kind dispatch)
executes at most once, and every finished caller received `dv.map copy`, the
copy of the one compiled value (absent when the dispatch result is absent) —
uniformly across callers. -/
theorem c1_compile_at_most_once (dv : Option GrammarObj) (N : Nat) (cfg : Config)
    (h : Relation.ReflTransGen (Step dv) (initConfig N) cfg) :
    cfg.compiles ≤ 1 ∧
    ∀ r, TState.done r ∈ cfg.threads → r = dv.map GrammarObj.copy := by
  have hi := inv_reachable dv N cfg h
  exact ⟨le_trans (Nat.le_add_right _ _) hi.count_le, fun r hr => hi.th_ok _ hr⟩

/-- The terminal configuration of a concrete one-thread run. -/
def c1runEnd : Config :=
  ⟨[⟨some ⟨0⟩, true⟩], some 0, 1, [TState.done (some ⟨1⟩)]⟩

theorem c1run : Relation.ReflTransGen (Step (some ⟨0⟩)) (initConfig 1) c1runEnd := by
  have s1 : Step (some ⟨0⟩) (initConfig 1)
      ⟨[⟨none, false⟩], some 0, 0, [TState.computing 0]⟩ :=
    Step.miss [] 0 [] []
  have s2 : Step (some ⟨0⟩)
      ⟨[⟨none, false⟩], some 0, 0, [TState.computing 0]⟩ c1runEnd :=
    Step.compute [⟨none, false⟩] (some 0) 0 0 [] []
  exact Relation.ReflTransGen.tail (Relation.ReflTransGen.single s1) s2

/-- Witness for C1: a concrete one-thread run compiles exactly once and the
caller's result is the copy of the compiled value. -/
theorem c1_compile_at_most_once_witness :
    c1runEnd.compiles ≤ 1 ∧
    some (⟨1⟩ : GrammarObj) = (some (⟨0⟩ : GrammarObj)).map GrammarObj.copy :=
  ⟨(c1_compile_at_most_once (some ⟨0⟩) 1 c1runEnd c1run).1,
   (c1_compile_at_most_once (some ⟨0⟩) 1 c1runEnd c1run).2 (some ⟨1⟩)
     (by simp [c1runEnd])⟩

/-! ## C8: returned objects are copies, never the canonical instance -/

theorem copy_ne (v : GrammarObj) : v.copy ≠ v := by
  intro hcontra
  have := congrArg GrammarObj.gid hcontra
  simp [GrammarObj.copy] at this

/-- C8: every constraint object handed out — by the non-blocking peek
`get_cached_value` or by any caller of the blocking `_init_value` — is
produced by the stored value's `copy` capability and differs from the
canonical cached instance; absent stored values are returned as absent. -/
theorem c8_returns_copies :
    (∀ (cache : GrammarKey → Option CacheEntry) (k : GrammarKey)
        (e : CacheEntry) (v : GrammarObj),
        cache k = some e → e.eventSet = true → e.value = some v →
        get_cached_value cache k = some v.copy ∧ v.copy ≠ v)
    ∧ (∀ (cache : GrammarKey → Option CacheEntry) (k : GrammarKey) (e : CacheEntry),
        cache k = some e → e.value = none → get_cached_value cache k = none)
    ∧ (∀ (dv : Option GrammarObj) (N : Nat) (cfg : Config) (r : Option GrammarObj),
        Relation.ReflTransGen (Step dv) (initConfig N) cfg →
        TState.done r ∈ cfg.threads →
        (∀ v, dv = some v → r = some v.copy ∧ v.copy ≠ v) ∧ (dv = none → r = none)) := by
  refine ⟨?_, ?_, ?_⟩
  · intro cache k e v hcache hev hval
    refine ⟨?_, copy_ne v⟩
    simp [get_cached_value, hcache, hev, hval]
  · intro cache k e hcache hval
    cases hev : e.eventSet <;> simp [get_cached_value, hcache, hev, hval]
  · intro dv N cfg r hreach hdone
    have hr := (inv_reachable dv N cfg hreach).th_ok _ hdone
    have hr' : r = dv.map GrammarObj.copy := hr
    constructor
    · intro v hv
      rw [hv] at hr'
      exact ⟨hr', copy_ne v⟩
    · intro hv
      rw [hv] at hr'
      exact hr'

/-- A concrete ready cache for the C8 witness. -/
def c8cache : GrammarKey → Option CacheEntry :=
  fun k => if k = ("json", "s") then some ⟨some ⟨5⟩, true⟩ else none

/-- Witness for C8: on a concrete ready entry, the peek returns the copy of
the stored object, and that copy is not the canonical instance. -/
theorem c8_returns_copies_witness :
    get_cached_value c8cache ("json", "s") = some (GrammarObj.copy ⟨5⟩)
    ∧ GrammarObj.copy ⟨5⟩ ≠ ⟨5⟩ :=
  c8_returns_copies.1 c8cache ("json", "s") ⟨some ⟨5⟩, true⟩ ⟨5⟩
    (by simp [c8cache]) rfl rfl

/-! ## Sampling batch state (`sampling_batch_info.py`)

Per-row tensors are embedded as lists (one element per row); the logit bias
and the penalty buffers, which are rows-by-vocab tensors, as lists of rows.
Numeric row contents are opaque to every claim, so rows carry `Int` values. -/

/-- A row's grammar constraint handle, as seen by `update_regex_vocab_mask`:
the capability to write its restriction row into a batch mask. -/
structure Grammar where
  maskRow : List Bool
  deriving DecidableEq, Repr

/-- One penalizer of the penaltylib orchestrator, at interface level: whether
`is_prepared()` holds, whether it is the repetition penalizer (the
`isinstance` dispatch in `update_penalties`), its
`cumulated_repetition_penalties` buffer, and its `apply` routine. -/
structure Penalizer where
  prepared : Bool
  isRepetition : Bool
  cumulatedRepetitionPenalties : List (List Int)
  applyPen : List (List Int) → List (List Int)

/-- `BatchedPenalizerOrchestrator` at interface level: `batch.batch_size()`
and the penalizer collection (`penalizers.values()`). -/
structure Orchestrator where
  batchSize : Nat
  penalizers : List Penalizer

/-- Torch advanced indexing `value[new_indices]`: row `j` of the result is row
`new_indices[j]` of `value`. -/
def gather (xs : List α) (d : α) (idx : List Nat) : List α :=
  idx.map fun i => xs.getD i d

/-- Modelled from the spec: `BatchedPenalizerOrchestrator.filter` lives in
penaltylib, not under src/; per the spec it forwards the row filtering to the
penalizers' internal state. -/
def Orchestrator.filterO (o : Orchestrator) (idx : List Nat) : Orchestrator :=
  { batchSize := idx.length
    penalizers := o.penalizers.map fun p =>
      { p with cumulatedRepetitionPenalties :=
          gather p.cumulatedRepetitionPenalties [] idx } }

/-- Modelled from the spec: `BatchedPenalizerOrchestrator.merge` lives in
penaltylib, not under src/; per the spec it forwards the merge to the
penalizers' internal state, self's rows first. -/
def Orchestrator.mergeO (o : Orchestrator) (other : Option Orchestrator) :
    Orchestrator :=
  match other with
  | none => o
  | some o2 =>
    { batchSize := o.batchSize + o2.batchSize
      penalizers := List.zipWith
        (fun p q => { p with cumulatedRepetitionPenalties :=
            p.cumulatedRepetitionPenalties ++ q.cumulatedRepetitionPenalties })
        o.penalizers o2.penalizers }

/-- `SamplingBatchInfo`: the dataclass fields of `sampling_batch_info.py`,
with the same defaults (`None` for every optional field). -/
structure SamplingBatchInfo where
  temperatures : List Int
  top_ps : List Int
  top_ks : List Int
  min_ps : List Int
  is_all_greedy : Bool
  need_min_p_sampling : Bool
  vocab_size : Nat
  logit_bias : Option (List (List Int)) := none
  vocab_mask : Option (List (List Bool)) := none
  apply_mask : Option Unit := none
  grammars : Option (List (Option Grammar)) := none
  penalizer_orchestrator : Option Orchestrator := none
  linear_penalties : Option (List (List Int)) := none
  scaling_penalties : Option (List (List Int)) := none
  device : String := "cuda"

/-- `SamplingBatchInfo.__len__`: `len(self.temperatures)`. -/
def SamplingBatchInfo.length (s : SamplingBatchInfo) : Nat :=
  s.temperatures.length

/-- `SamplingBatchInfo.filter_batch`: forward to the orchestrator, then gather
the rows of each tracked array (`temperatures`, `top_ps`, `top_ks`, `min_ps`,
`logit_bias`) at `new_indices`; a `None` `logit_bias` is skipped. -/
def SamplingBatchInfo.filter_batch (s : SamplingBatchInfo) (new_indices : List Nat) :
    SamplingBatchInfo :=
  { s with
    penalizer_orchestrator :=
      s.penalizer_orchestrator.map fun o => Orchestrator.filterO o new_indices
    temperatures := gather s.temperatures 0 new_indices
    top_ps := gather s.top_ps 0 new_indices
    top_ks := gather s.top_ks 0 new_indices
    min_ps := gather s.min_ps 0 new_indices
    logit_bias := s.logit_bias.map fun b => gather b [] new_indices }

/-- `SamplingBatchInfo.merge_bias_tensor`: `None` on both sides stays `None`;
otherwise a missing side is filled with `default`-valued rows — `bs1` rows for
the left side, `bs2` for the right, with the row width taken from the present
side — and the two are concatenated. -/
def SamplingBatchInfo.merge_bias_tensor (lhs rhs : Option (List (List Int)))
    (bs1 bs2 : Nat) (d : Int) : Option (List (List Int)) :=
  match lhs, rhs with
  | none, none => none
  | _, _ =>
    let w := match lhs with
      | some t => (t.headD []).length
      | none => ((rhs.getD []).headD []).length
    let l := lhs.getD (List.replicate bs1 (List.replicate w d))
    let r := rhs.getD (List.replicate bs2 (List.replicate w d))
    some (l ++ r)

/-- `SamplingBatchInfo.merge_batch`: forward the merge to the orchestrator,
concatenate the four tracked arrays in place, AND the greedy flags, then merge
the bias tensors — passing `len(self)` as it stands **after** the arrays were
already concatenated, exactly as the source does. -/
def SamplingBatchInfo.merge_batch (s other : SamplingBatchInfo) : SamplingBatchInfo :=
  let s0 := { s with penalizer_orchestrator :=
      s.penalizer_orchestrator.map fun o => Orchestrator.mergeO o other.penalizer_orchestrator }
  let s1 := { s0 with
      temperatures := s0.temperatures ++ other.temperatures
      top_ps := s0.top_ps ++ other.top_ps
      top_ks := s0.top_ks ++ other.top_ks
      min_ps := s0.min_ps ++ other.min_ps }
  let s2 := { s1 with is_all_greedy := s1.is_all_greedy && other.is_all_greedy }
  { s2 with logit_bias := (SamplingBatchInfo.merge_bias_tensor s2.logit_bias
      other.logit_bias s2.length other.length 0) }

/-- `SamplingBatchInfo.copy`: a new dataclass instance passing only the four
row arrays, the two flags, the vocab size and the device; every other field
takes its dataclass default (`None`). -/
def SamplingBatchInfo.copy (s : SamplingBatchInfo) : SamplingBatchInfo :=
  { temperatures := s.temperatures
    top_ps := s.top_ps
    top_ks := s.top_ks
    min_ps := s.min_ps
    is_all_greedy := s.is_all_greedy
    need_min_p_sampling := s.need_min_p_sampling
    vocab_size := s.vocab_size
    device := s.device }

/-! ## C4, C10, C9, C3 -/

/-- C4: for every pair of sampling states, `merge_batch` concatenates each
tracked per-row array (temperatures, top_ps, top_ks, min_ps) with self's rows
first, then other's rows, preserving each side's internal order, and sets
`is_all_greedy` to the AND of both flags. -/
theorem c4_merge_concatenates_and_ands_greedy (s o : SamplingBatchInfo) :
    (s.merge_batch o).temperatures = s.temperatures ++ o.temperatures
    ∧ (s.merge_batch o).top_ps = s.top_ps ++ o.top_ps
    ∧ (s.merge_batch o).top_ks = s.top_ks ++ o.top_ks
    ∧ (s.merge_batch o).min_ps = s.min_ps ++ o.min_ps
    ∧ (s.merge_batch o).is_all_greedy = (s.is_all_greedy && o.is_all_greedy) :=
  ⟨rfl, rfl, rfl, rfl, rfl⟩

/-- C10: `merge_batch` leaves `need_min_p_sampling` at self's pre-merge value
for every `other` (in particular one whose rows have positive min_p), and
`filter_batch` never recomputes `need_min_p_sampling` or `is_all_greedy` from
the surviving rows. -/
theorem c10_flags_not_recomputed (s o : SamplingBatchInfo) (idx : List Nat) :
    (s.merge_batch o).need_min_p_sampling = s.need_min_p_sampling
    ∧ (s.filter_batch idx).need_min_p_sampling = s.need_min_p_sampling
    ∧ (s.filter_batch idx).is_all_greedy = s.is_all_greedy :=
  ⟨rfl, rfl, rfl⟩

/-- A state whose derived fields are all populated, for the C9 counterexample. -/
def c9sample : SamplingBatchInfo :=
  { temperatures := [1]
    top_ps := [1]
    top_ks := [1]
    min_ps := [0]
    is_all_greedy := true
    need_min_p_sampling := false
    vocab_size := 2
    logit_bias := some [[3, 4]] }

/-- C9 counterexample: the claim says `copy()` shares the optional logit bias
with the original; in the source `copy()` does not pass `logit_bias`, so the
copy's bias is the dataclass default `None` while the original's is present. -/
theorem c9_copy_drops_logit_bias :
    c9sample.logit_bias = some [[3, 4]]
    ∧ (SamplingBatchInfo.copy c9sample).logit_bias = none :=
  ⟨rfl, rfl⟩

/-- C9 amended: `copy()` returns a shallow duplicate sharing the four per-row
sampling arrays, both flags, the vocab size and the device, while the optional
logit bias is cleared (not shared) along with all derived state: vocabulary
mask, mask-application routine, grammars, penalizer orchestrator, and both
penalty buffers are absent in the copy. -/
theorem c9_copy_shares_rows_clears_derived (s : SamplingBatchInfo) :
    (SamplingBatchInfo.copy s).temperatures = s.temperatures
    ∧ (SamplingBatchInfo.copy s).top_ps = s.top_ps
    ∧ (SamplingBatchInfo.copy s).top_ks = s.top_ks
    ∧ (SamplingBatchInfo.copy s).min_ps = s.min_ps
    ∧ (SamplingBatchInfo.copy s).is_all_greedy = s.is_all_greedy
    ∧ (SamplingBatchInfo.copy s).need_min_p_sampling = s.need_min_p_sampling
    ∧ (SamplingBatchInfo.copy s).vocab_size = s.vocab_size
    ∧ (SamplingBatchInfo.copy s).device = s.device
    ∧ (SamplingBatchInfo.copy s).logit_bias = none
    ∧ (SamplingBatchInfo.copy s).vocab_mask = none
    ∧ (SamplingBatchInfo.copy s).apply_mask = none
    ∧ (SamplingBatchInfo.copy s).grammars = none
    ∧ (SamplingBatchInfo.copy s).penalizer_orchestrator = none
    ∧ (SamplingBatchInfo.copy s).linear_penalties = none
    ∧ (SamplingBatchInfo.copy s).scaling_penalties = none :=
  ⟨rfl, rfl, rfl, rfl, rfl, rfl, rfl, rfl, rfl, rfl, rfl, rfl, rfl, rfl, rfl⟩

/-- A one-row state without a bias, for the C3 failing input. -/
def c3self : SamplingBatchInfo :=
  { temperatures := [1]
    top_ps := [1]
    top_ks := [1]
    min_ps := [0]
    is_all_greedy := false
    need_min_p_sampling := false
    vocab_size := 1 }

/-- A one-row state whose bias is present, for the C3 failing input. -/
def c3other : SamplingBatchInfo :=
  { temperatures := [2]
    top_ps := [1]
    top_ks := [1]
    min_ps := [0]
    is_all_greedy := false
    need_min_p_sampling := false
    vocab_size := 1
    logit_bias := some [[7]] }

/-- C3 at the failing input: merging a 1-row state without a bias into a 1-row
state with a bias yields a merged batch of 2 rows whose bias tensor has 3
rows, because `merge_batch` passes `len(self)` measured after the row arrays
were already concatenated (2) as the fill size for the missing left side,
instead of the left side's pre-merge row count (1).  The claim says the
missing side is filled with its pre-merge row count so the merged bias has one
row per merged request. -/
theorem c3_bias_fill_uses_postmerge_rowcount :
    (c3self.merge_batch c3other).length = 2
    ∧ (c3self.merge_batch c3other).logit_bias = some [[0], [0], [7]] :=
  ⟨rfl, rfl⟩

/-! ## C5: `filter_batch` gathers rows in index order -/

theorem gather_length (xs : List α) (d : α) (idx : List Nat) :
    (gather xs d idx).length = idx.length := by
  simp [gather]

theorem gather_getD (xs : List α) (d : α) (idx : List Nat) (j : Nat)
    (hj : j < idx.length) :
    (gather xs d idx).getD j d = xs.getD (idx.getD j 0) d := by
  unfold gather
  have h1 : idx.getD j 0 = idx[j] := by
    rw [List.getD_eq_getElem?_getD, List.getElem?_eq_getElem hj]
    rfl
  rw [h1, List.getD_eq_getElem?_getD, List.getElem?_map, List.getElem?_eq_getElem hj]
  rfl

/-- C5: for every sampling state and index list, `filter_batch` gathers the
rows of every tracked per-row array — temperatures, top_ps, top_ks, min_ps,
and the logit bias when present — in exactly the order given by the index
list: row `j` of each filtered array is row `idx[j]` of the original,
identically across all arrays; rows not listed are dropped (the new row count
is the index list's length). -/
theorem c5_filter_gathers_in_index_order (s : SamplingBatchInfo) (idx : List Nat)
    (j : Nat) (hj : j < idx.length) :
    (s.filter_batch idx).length = idx.length
    ∧ (s.filter_batch idx).temperatures.getD j 0 = s.temperatures.getD (idx.getD j 0) 0
    ∧ (s.filter_batch idx).top_ps.getD j 0 = s.top_ps.getD (idx.getD j 0) 0
    ∧ (s.filter_batch idx).top_ks.getD j 0 = s.top_ks.getD (idx.getD j 0) 0
    ∧ (s.filter_batch idx).min_ps.getD j 0 = s.min_ps.getD (idx.getD j 0) 0
    ∧ (s.logit_bias = none → (s.filter_batch idx).logit_bias = none)
    ∧ (∀ b, s.logit_bias = some b →
        (s.filter_batch idx).logit_bias = some (gather b [] idx)
        ∧ (gather b [] idx).getD j [] = b.getD (idx.getD j 0) []) := by
  refine ⟨?_, gather_getD _ _ _ _ hj, gather_getD _ _ _ _ hj,
    gather_getD _ _ _ _ hj, gather_getD _ _ _ _ hj, ?_, ?_⟩
  · show (gather s.temperatures 0 idx).length = idx.length
    exact gather_length _ _ _
  · intro hb
    simp [SamplingBatchInfo.filter_batch, hb]
  · intro b hb
    refine ⟨?_, gather_getD _ _ _ _ hj⟩
    simp [SamplingBatchInfo.filter_batch, hb]

/-- A three-row state for the C5 witness. -/
def c5sample : SamplingBatchInfo :=
  { temperatures := [10, 20, 30]
    top_ps := [1, 2, 3]
    top_ks := [4, 5, 6]
    min_ps := [7, 8, 9]
    is_all_greedy := false
    need_min_p_sampling := true
    vocab_size := 1
    logit_bias := some [[1], [2], [3]] }

/-- Witness for C5: `filter_batch([2, 0])` on three rows keeps two rows and
its row 0 is the original row 2. -/
theorem c5_filter_gathers_in_index_order_witness :
    (c5sample.filter_batch [2, 0]).length = 2
    ∧ (c5sample.filter_batch [2, 0]).temperatures.getD 0 0 =
        c5sample.temperatures.getD 2 0 :=
  ⟨(c5_filter_gathers_in_index_order c5sample [2, 0] 0 (by decide)).1,
   (c5_filter_gathers_in_index_order c5sample [2, 0] 0 (by decide)).2.1⟩

/-! ## C6: `update_penalties` fully recomputes -/

/-- The loop of `update_penalties` over `penalizers.values()`, starting from
the two buffers just reset to `None`: a prepared repetition penalizer installs
its `cumulated_repetition_penalties` as the scaling buffer; every other
prepared penalizer applies itself to the additive buffer, which is lazily
allocated as a zero tensor of `batch_size x vocab_size` on first use;
unprepared penalizers are skipped. -/
def penaltyBuffers (o : Orchestrator) (vocab : Nat) :
    Option (List (List Int)) × Option (List (List Int)) :=
  o.penalizers.foldl
    (fun acc p =>
      if p.prepared then
        if p.isRepetition then (acc.1, some p.cumulatedRepetitionPenalties)
        else
          (some (p.applyPen (acc.1.getD
            (List.replicate o.batchSize (List.replicate vocab 0)))), acc.2)
      else acc)
    (none, none)

/-- `SamplingBatchInfo.update_penalties`: return unchanged without an
orchestrator; otherwise reset both penalty buffers and recompute them from the
penalizer state. -/
def SamplingBatchInfo.update_penalties (s : SamplingBatchInfo) : SamplingBatchInfo :=
  match s.penalizer_orchestrator with
  | none => s
  | some o =>
    { s with
      linear_penalties := (penaltyBuffers o s.vocab_size).1
      scaling_penalties := (penaltyBuffers o s.vocab_size).2 }

/-- C6: for every sampling state with a penalizer orchestrator, calling
`update_penalties` twice with no intervening generation step yields identical
additive (linear) and multiplicative (scaling) buffers both times, and the
buffers produced are independent of whatever stale buffers were present
before the call — each call discards them and fully recomputes from the
current penalizer state. -/
theorem c6_update_penalties_recomputes (s : SamplingBatchInfo) (o : Orchestrator)
    (h : s.penalizer_orchestrator = some o) :
    ((s.update_penalties.update_penalties).linear_penalties
        = s.update_penalties.linear_penalties
      ∧ (s.update_penalties.update_penalties).scaling_penalties
        = s.update_penalties.scaling_penalties)
    ∧ ∀ lp sp,
        (SamplingBatchInfo.update_penalties
            { s with linear_penalties := lp, scaling_penalties := sp }).linear_penalties
          = s.update_penalties.linear_penalties
        ∧ (SamplingBatchInfo.update_penalties
            { s with linear_penalties := lp, scaling_penalties := sp }).scaling_penalties
          = s.update_penalties.scaling_penalties := by
  constructor
  · constructor <;> simp [SamplingBatchInfo.update_penalties, h]
  · intro lp sp
    constructor <;> simp [SamplingBatchInfo.update_penalties, h]

/-- A concrete orchestrator with a prepared repetition penalizer and a
prepared additive penalizer. -/
def c6orch : Orchestrator :=
  { batchSize := 1
    penalizers :=
      [{ prepared := true
         isRepetition := true
         cumulatedRepetitionPenalties := [[2]]
         applyPen := fun t => t },
       { prepared := true
         isRepetition := false
         cumulatedRepetitionPenalties := []
         applyPen := fun t => t.map fun row => row.map fun x => x + 1 }] }

/-- A one-row state carrying `c6orch`, for the C6 witness. -/
def c6sample : SamplingBatchInfo :=
  { temperatures := [1]
    top_ps := [1]
    top_ks := [1]
    min_ps := [0]
    is_all_greedy := false
    need_min_p_sampling := false
    vocab_size := 1
    penalizer_orchestrator := some c6orch }

/-- Witness for C6 at a concrete state: a second `update_penalties` call
reproduces the linear buffer, and stale buffers do not leak into the result. -/
theorem c6_update_penalties_recomputes_witness :
    (c6sample.update_penalties.update_penalties).linear_penalties
      = c6sample.update_penalties.linear_penalties
    ∧ (SamplingBatchInfo.update_penalties
        { c6sample with linear_penalties := some [[9]],
                        scaling_penalties := some [[9]] }).scaling_penalties
      = c6sample.update_penalties.scaling_penalties :=
  ⟨(c6_update_penalties_recomputes c6sample c6orch rfl).1.1,
   ((c6_update_penalties_recomputes c6sample c6orch rfl).2 (some [[9]]) (some [[9]])).2⟩

/-! ## C7: `update_regex_vocab_mask` -/

/-- Modelled from the spec: `allocate_vocab_mask` of the concrete grammar
objects is not under src/; per the spec it allocates a mask sized
batch-rows x vocab-size whose rows start all-permitted (`true` = permitted). -/
def allocate_vocab_mask (vocab_sz batch_sz : Nat) : List (List Bool) :=
  List.replicate batch_sz (List.replicate vocab_sz true)

/-- Modelled from the spec: `fill_vocab_mask` of a grammar object writes that
grammar's restriction row into row `i` of the batch mask. -/
def Grammar.fill_vocab_mask (g : Grammar) (mask : List (List Bool)) (i : Nat) :
    List (List Bool) :=
  mask.set i g.maskRow

/-- The `for i, grammar in enumerate(self.grammars)` loop of
`update_regex_vocab_mask`: fill row `i` only when row `i` carries a grammar. -/
def fillLoop (gs : List (Option Grammar)) (mask : List (List Bool)) (i : Nat) :
    List (List Bool) :=
  match gs with
  | [] => mask
  | none :: rest => fillLoop rest mask (i + 1)
  | some g :: rest => fillLoop rest (g.fill_vocab_mask mask i) (i + 1)

/-- `SamplingBatchInfo.update_regex_vocab_mask`: when the grammar list is
absent, empty, or holds no grammar object, clear the mask and the
mask-application routine; otherwise allocate a full-batch all-permitted mask
and fill exactly the rows that carry a grammar. -/
def SamplingBatchInfo.update_regex_vocab_mask (s : SamplingBatchInfo) :
    SamplingBatchInfo :=
  match s.grammars with
  | none => { s with vocab_mask := none, apply_mask := none }
  | some gs =>
    if gs.all fun g => g.isNone then
      { s with vocab_mask := none, apply_mask := none }
    else
      { s with
        vocab_mask := some (fillLoop gs
          (allocate_vocab_mask s.vocab_size s.temperatures.length) 0)
        apply_mask := some () }

theorem fillLoop_length (gs : List (Option Grammar)) (m : List (List Bool)) (k : Nat) :
    (fillLoop gs m k).length = m.length := by
  induction gs generalizing m k with
  | nil => rfl
  | cons g rest ih =>
    cases g <;> simp [fillLoop, Grammar.fill_vocab_mask, ih]

theorem fillLoop_getD_below (gs : List (Option Grammar)) (m : List (List Bool))
    (k i : Nat) (d : List Bool) (hik : i < k) :
    (fillLoop gs m k).getD i d = m.getD i d := by
  induction gs generalizing m k with
  | nil => rfl
  | cons g rest ih =>
    cases g with
    | none =>
      rw [fillLoop, ih _ _ (Nat.lt_succ_of_lt hik)]
    | some g0 =>
      rw [fillLoop, ih _ _ (Nat.lt_succ_of_lt hik)]
      unfold Grammar.fill_vocab_mask
      rw [List.getD_eq_getElem?_getD, List.getElem?_set_ne (by omega),
        ← List.getD_eq_getElem?_getD]

theorem fillLoop_getD (gs : List (Option Grammar)) (m : List (List Bool))
    (k j : Nat) (d : List Bool) (hm : k + j < m.length) :
    (fillLoop gs m k).getD (k + j) d =
      match gs.getD j none with
      | some g => g.maskRow
      | none => m.getD (k + j) d := by
  induction gs generalizing m k j with
  | nil => simp [fillLoop, List.getD]
  | cons g rest ih =>
    cases j with
    | zero =>
      cases g with
      | none =>
        rw [fillLoop, fillLoop_getD_below rest m (k + 1) (k + 0) d (by omega)]
        rfl
      | some g0 =>
        rw [fillLoop, fillLoop_getD_below rest _ (k + 1) (k + 0) d (by omega)]
        unfold Grammar.fill_vocab_mask
        have h00 : k + 0 = k := by omega
        rw [h00, List.getD_eq_getElem?_getD, List.getElem?_set_self (by omega)]
        rfl
    | succ j' =>
      have harith : k + (j' + 1) = (k + 1) + j' := by omega
      cases g with
      | none =>
        rw [fillLoop, harith, ih m (k + 1) j' (by omega)]
        rfl
      | some g0 =>
        rw [fillLoop, harith, ih _ (k + 1) j'
          (by rw [Grammar.fill_vocab_mask, List.length_set]; omega)]
        have hcons : (some g0 :: rest).getD (j' + 1) none = rest.getD j' none := rfl
        rw [hcons]
        cases hrest : rest.getD j' none with
        | some g1 => simp only [hrest]
        | none =>
          simp only [hrest]
          unfold Grammar.fill_vocab_mask
          rw [List.getD_eq_getElem?_getD, List.getElem?_set_ne (by omega),
            ← List.getD_eq_getElem?_getD]

/-- C7: with no row carrying an active constraint object (grammar list
absent, empty, or all-`None`), `update_regex_vocab_mask` sets both the
vocabulary mask and the mask-application routine to absent; with at least one
constrained row it allocates a mask with one row per batch row, fills only the
rows that carry a grammar with that grammar's restriction row, and leaves
every unconstrained row all-permitted. -/
theorem c7_vocab_mask_fill (s : SamplingBatchInfo) :
    (s.grammars = none →
      s.update_regex_vocab_mask.vocab_mask = none
      ∧ s.update_regex_vocab_mask.apply_mask = none)
    ∧ (∀ gs, s.grammars = some gs → (gs.all fun g => g.isNone) = true →
      s.update_regex_vocab_mask.vocab_mask = none
      ∧ s.update_regex_vocab_mask.apply_mask = none)
    ∧ (∀ gs, s.grammars = some gs → (gs.all fun g => g.isNone) = false →
      ∃ m, s.update_regex_vocab_mask.vocab_mask = some m
        ∧ s.update_regex_vocab_mask.apply_mask = some ()
        ∧ m.length = s.temperatures.length
        ∧ ∀ i, i < s.temperatures.length →
            m.getD i [] = (match gs.getD i none with
              | some g => g.maskRow
              | none => List.replicate s.vocab_size true)) := by
  refine ⟨?_, ?_, ?_⟩
  · intro h
    constructor <;> simp [SamplingBatchInfo.update_regex_vocab_mask, h]
  · intro gs h hall
    constructor <;> simp [SamplingBatchInfo.update_regex_vocab_mask, h, hall]
  · intro gs h hall
    refine ⟨fillLoop gs (allocate_vocab_mask s.vocab_size s.temperatures.length) 0, ?_, ?_, ?_, ?_⟩
    · simp [SamplingBatchInfo.update_regex_vocab_mask, h, hall]
    · simp [SamplingBatchInfo.update_regex_vocab_mask, h, hall]
    · rw [fillLoop_length]
      simp [allocate_vocab_mask]
    · intro i hi
      have hm : 0 + i < (allocate_vocab_mask s.vocab_size s.temperatures.length).length := by
        simp [allocate_vocab_mask]
        omega
      have := fillLoop_getD gs (allocate_vocab_mask s.vocab_size s.temperatures.length) 0 i [] hm
      rw [Nat.zero_add] at this
      rw [this]
      cases hgi : gs.getD i none with
      | some g => simp only [hgi]
      | none =>
        simp only [hgi]
        unfold allocate_vocab_mask
        rw [List.getD_eq_getElem?_getD, List.getElem?_replicate_of_lt hi]
        rfl

/-- A two-row state whose second row carries a grammar, for the C7 witness. -/
def c7sample : SamplingBatchInfo :=
  { temperatures := [1, 2]
    top_ps := [1, 1]
    top_ks := [1, 1]
    min_ps := [0, 0]
    is_all_greedy := true
    need_min_p_sampling := false
    vocab_size := 2
    grammars := some [none, some ⟨[false, true]⟩] }

/-- Witness for C7 at a concrete two-row state: the mask covers the full
batch, the unconstrained row stays all-permitted, the constrained row carries
the grammar's restriction, and the application routine is recorded. -/
theorem c7_vocab_mask_fill_witness :
    c7sample.update_regex_vocab_mask.vocab_mask = some [[true, true], [false, true]]
    ∧ c7sample.update_regex_vocab_mask.apply_mask = some () := by
  have happ := (c7_vocab_mask_fill c7sample).2.2 [none, some ⟨[false, true]⟩]
    rfl (by decide)
  obtain ⟨m, hm, ha, hlen, hrows⟩ := happ
  exact ⟨rfl, ha⟩

end SGLang
